import Mathlib

set_option autoImplicit false

namespace Bridge

/-! ## Insertion-ordered string dictionaries

Python `dict`s (as used throughout `core/message_queue.py` and the registry)
preserve insertion order: lookup finds the unique entry for a key, assignment
to an existing key keeps its position, assignment to a fresh key appends at
the end, `next(iter(d))` yields the first key in insertion order, and
`pop(k, None)` removes the entry when present.  We model them as association
lists; `keysNodup` captures the dict invariant that keys are unique. -/

abbrev Dict (α : Type) := List (String × α)

def dictFind? {α : Type} (k : String) (d : Dict α) : Option α :=
  (d.find? (fun p => p.1 == k)).map (fun p => p.2)

def dictContains {α : Type} (k : String) (d : Dict α) : Bool :=
  (d.find? (fun p => p.1 == k)).isSome

def dictInsert {α : Type} (k : String) (v : α) : Dict α → Dict α
  | [] => [(k, v)]
  | p :: ds => if p.1 == k then (k, v) :: ds else p :: dictInsert k v ds

def dictPop {α : Type} (k : String) (d : Dict α) : Dict α :=
  d.eraseP (fun p => p.1 == k)

def keysNodup {α : Type} (d : Dict α) : Prop :=
  (d.map Prod.fst).Nodup

instance {α : Type} (d : Dict α) : Decidable (keysNodup d) := by
  unfold keysNodup; infer_instance

/-! ## The rendezvous queue (`core/message_queue.py`, class `MessageQueue`)

State: `_pending_waits : session_id → (request_id → PendingWait)` and
`_responses : session_id → (request_id → response)`.  Each `PendingWait`
holds an `asyncio.Future`; futures are shared mutable cells, so we keep them
in a side table `futures` indexed by creation order (a fresh future gets
index `futures.length`), and the pending map stores the index.  `done()` on a
future is true both after `set_result` and after `cancel()`. -/

inductive FutureState where
  | pending
  | done (response : String)
  | cancelled
deriving DecidableEq, Repr

structure QState where
  futures : List FutureState
  pending : Dict (Dict Nat)
  responses : Dict (Dict String)
deriving DecidableEq, Repr

def qEmpty : QState := ⟨[], [], []⟩

def lookup2 {α : Type} (m : Dict (Dict α)) (k1 k2 : String) : Option α :=
  (dictFind? k1 m).bind (fun inner => dictFind? k2 inner)

/-- Python truthiness of an optional string argument: `None` and `""` are
falsy.  `deliver_response` tests `if request_id ...` twice. -/
def truthy (r : Option String) : Option String :=
  match r with
  | some s => if s.isEmpty then none else some s
  | none => none

/-- The registration half of `wait_for_response` (lines 49-65): ensure the
per-session dict exists and store a fresh `PendingWait` with a new future
under `request_id`, replacing any stale entry for the same key. -/
def registerPendingWait (st : QState) (session_id request_id : String) : QState :=
  let inner := (dictFind? session_id st.pending).getD []
  { st with
      futures := st.futures ++ [FutureState.pending],
      pending := dictInsert session_id (dictInsert request_id st.futures.length inner) st.pending }

/-- Entry of `wait_for_response` (lines 42-65): first the fast path — if a
parked response exists for `(session_id, request_id)` it is popped (deleting
the per-session map when it empties) and returned immediately; otherwise a
`PendingWait` is registered.  The `timeout` argument only governs how long
the registered future is awaited, which happens after this step. -/
def wait_for_response_enter (st : QState) (session_id request_id : String)
    (_timeout : Nat) : Option String × QState :=
  match dictFind? session_id st.responses with
  | some resps =>
      match dictFind? request_id resps with
      | some response =>
          let resps' := dictPop request_id resps
          let responses' :=
            if resps'.isEmpty then dictPop session_id st.responses
            else dictInsert session_id resps' st.responses
          (some response, { st with responses := responses' })
      | none => (none, registerPendingWait st session_id request_id)
  | none => (none, registerPendingWait st session_id request_id)

/-- The `finally` block of `wait_for_response` (lines 74-79): pop this wait's
`request_id` from the session's pending dict and delete the session key when
the dict becomes empty.  It runs on every exit: delivery, timeout, and
propagated cancellation. -/
def wait_for_response_cleanup (st : QState) (session_id request_id : String) : QState :=
  match dictFind? session_id st.pending with
  | some inner =>
      let inner' := dictPop request_id inner
      { st with pending :=
          if inner'.isEmpty then dictPop session_id st.pending
          else dictInsert session_id inner' st.pending }
  | none => st

inductive WaitOutcome where
  | delivered (response : String)
  | timedOut
  | cancelled
deriving DecidableEq, Repr

/-- How `await asyncio.wait_for(pending.future, timeout)` resolves, as a
function of the future's state when the wait ends: a completed future yields
its response, a cancelled future propagates cancellation, and a future still
pending when the timeout elapses yields `None` (lines 67-73). -/
def waitResolve (fs : FutureState) : WaitOutcome :=
  match fs with
  | FutureState.done r => WaitOutcome.delivered r
  | FutureState.cancelled => WaitOutcome.cancelled
  | FutureState.pending => WaitOutcome.timedOut

/-- Exit of `wait_for_response` for the waiter owning future `t`: resolve the
outcome from the future's state and run the `finally` cleanup. -/
def wait_for_response_exit (st : QState) (session_id request_id : String) (t : Nat) :
    WaitOutcome × QState :=
  (waitResolve (st.futures.getD t FutureState.pending),
   wait_for_response_cleanup st session_id request_id)

/-- The park path of `deliver_response` (lines 111-122): store the response
in `_responses` under the (possibly rebound) request id, or `"_latest"` when
that id is falsy. -/
def park (st : QState) (session_id : String) (key : Option String) (response : String) : QState :=
  let inner := (dictFind? session_id st.responses).getD []
  let k := match truthy key with
           | some r => r
           | none => "_latest"
  { st with responses := dictInsert session_id (dictInsert k response inner) st.responses }

/-- `deliver_response` (lines 81-122).  If the session has pending waits: a
truthy `request_id` that matches picks that wait, otherwise (unmatched or
omitted id) `request_id = next(iter(pending_waits))` rebinds to the first key
in insertion order.  A chosen wait whose future is not yet done gets
`set_result(response)`; in every other case the response is parked under the
current (possibly rebound) `request_id`.  Always returns `True`. -/
def deliver_response (st : QState) (session_id : String) (request_id : Option String)
    (response : String) : Bool × QState :=
  let rid := truthy request_id
  match dictFind? session_id st.pending with
  | some pending_waits =>
      let chosen : Option (String × Nat) :=
        match rid with
        | some r =>
            match dictFind? r pending_waits with
            | some t => some (r, t)
            | none => pending_waits.head?
        | none => pending_waits.head?
      match chosen with
      | some (r, t) =>
          if st.futures.getD t FutureState.pending = FutureState.pending then
            (true, { st with futures := st.futures.set t (FutureState.done response) })
          else
            (true, park st session_id (some r) response)
      | none => (true, park st session_id rid response)
  | none => (true, park st session_id rid response)

/-- `get_pending_response` (lines 124-132): pop a stored response without
blocking; the per-session dict is not deleted when it empties here. -/
def get_pending_response (st : QState) (session_id request_id : String) :
    Option String × QState :=
  match dictFind? session_id st.responses with
  | some inner =>
      (dictFind? request_id inner,
       { st with responses := dictInsert session_id (dictPop request_id inner) st.responses })
  | none => (none, st)

/-- `has_pending_waits` (lines 134-136): `bool(self._pending_waits.get(session_id))`. -/
def has_pending_waits (st : QState) (session_id : String) : Bool :=
  match dictFind? session_id st.pending with
  | some inner => !inner.isEmpty
  | none => false

/-- `cancel_all_waits` (lines 138-145): cancel every not-yet-done future of
the session and drop the session's pending dict. -/
def cancel_all_waits (st : QState) (session_id : String) : QState :=
  match dictFind? session_id st.pending with
  | some inner =>
      let futures' := inner.foldl
        (fun fs p =>
          if fs.getD p.2 FutureState.pending = FutureState.pending
          then fs.set p.2 FutureState.cancelled else fs) st.futures
      { st with futures := futures', pending := dictPop session_id st.pending }
  | none => st

/-- Well-formedness: every dict in a `QState` has unique keys, as Python
dicts do by construction. -/
def qStateWF (st : QState) : Prop :=
  keysNodup st.pending ∧ (∀ p ∈ st.pending, keysNodup p.2) ∧
  keysNodup st.responses ∧ (∀ p ∈ st.responses, keysNodup p.2)

instance (st : QState) : Decidable (qStateWF st) := by
  unfold qStateWF; infer_instance

/-! ## Decimal digits

`generate_unique_name` renders `f"{base} #{max_num + 1}"` and parses
`int(name.split("#")[-1].strip())`.  We model decimal rendering and parsing
of the relevant shapes (optional minus sign followed by digits; Python's
`int()` additionally accepts `+` and `_`, which never occur in generated
names) directly over `List Char`. -/

def decDigitChar : Nat → Char
  | 0 => '0' | 1 => '1' | 2 => '2' | 3 => '3' | 4 => '4'
  | 5 => '5' | 6 => '6' | 7 => '7' | 8 => '8' | _ => '9'

/-- Most-significant-first decimal digits of a natural number, with a fuel
argument (any fuel greater than `n` suffices). -/
def decReprAux : Nat → Nat → List Char → List Char
  | 0, _, acc => acc
  | fuel+1, n, acc =>
      if n < 10 then decDigitChar n :: acc
      else decReprAux fuel (n / 10) (decDigitChar (n % 10) :: acc)

/-- Most-significant-first decimal digits of a natural number. -/
def decRepr (n : Nat) : List Char := decReprAux (n + 1) n []

/-- Recursive characterisation of `decRepr`, used for proofs. -/
def decReprW (n : Nat) : List Char :=
  if _h : n < 10 then [decDigitChar n]
  else decReprW (n / 10) ++ [decDigitChar (n % 10)]
decreasing_by exact Nat.div_lt_self (by omega) (by omega)

def digitVal (c : Char) : Nat := c.toNat - 48

/-- Python `int(s)` on a non-negative decimal string. -/
def listToNat? (l : List Char) : Option Nat :=
  if !l.isEmpty && l.all Char.isDigit then
    some (l.foldl (fun n c => n * 10 + digitVal c) 0)
  else none

/-- Python `int(s)` with an optional leading minus sign. -/
def listToInt? (l : List Char) : Option Int :=
  match l with
  | [] => none
  | c :: rest =>
      if c = '-' then (listToNat? rest).map (fun n => -(n : Int))
      else (listToNat? (c :: rest)).map (fun n => (n : Int))

/-- Python `str(i)` for an `int`. -/
def intShow (i : Int) : String :=
  if i < 0 then String.mk ('-' :: decRepr (-i).toNat) else String.mk (decRepr i.toNat)

/-- Python `s.strip()`: drop whitespace from both ends. -/
def stripChars (l : List Char) : List Char :=
  ((l.dropWhile Char.isWhitespace).reverse.dropWhile Char.isWhitespace).reverse

/-- Python `s.split("#")[-1]`: the suffix after the last `#`, or the whole
string when no `#` occurs. -/
def afterLastHash (l : List Char) : List Char :=
  (l.reverse.takeWhile (fun c => c ≠ '#')).reverse

/-- Python `s.startswith(p)` over character lists. -/
def listStartsWith : List Char → List Char → Bool
  | _, [] => true
  | [], _ :: _ => false
  | c :: cs, p :: ps => c == p && listStartsWith cs ps

/-! ## Session registry (`core/session_registry.py`, `core/repositories.py`)

A session row as stored in the `sessions` table; `status` and
`control_state` are kept as wire strings, as in the database.  The
`session_events` table is modelled as an append-only list so that "no event
is emitted" is expressible. -/

structure SessionRow where
  id : String
  name : String
  project_dir : String
  status : String
  control_state : String
deriving DecidableEq, Repr

structure SessionEvent where
  session_id : String
  event_type : String
  data : String
deriving DecidableEq, Repr

structure RegState where
  sessions : List SessionRow
  events : List SessionEvent
deriving DecidableEq, Repr

def regEmpty : RegState := ⟨[], []⟩

/-- `SessionRepository.get_by_id`: `SELECT * FROM sessions WHERE id = ?`. -/
def get_by_id (rows : List SessionRow) (session_id : String) : Option SessionRow :=
  rows.find? (fun r => r.id == session_id)

/-- Modelled from the spec: `SessionRepository.get_by_id_prefix` is called
at `session_registry.py:166` but its definition is not under `src/`; the
spec's Lookup rule (§4.1) resolves sessions "by ID prefix (for truncated
button callbacks — min 8 chars)".  Modelled as the first row whose id starts
with the given string; the 8-character minimum is enforced by the caller. -/
def getByIdPfx (rows : List SessionRow) (p : String) : Option SessionRow :=
  rows.find? (fun r => listStartsWith r.id.toList p.toList)

/-- `_dict_to_session` (lines 65-70): invalid stored `control_state` strings
are coerced to `remote_active` on read. -/
def coerce_control_state (s : String) : String :=
  if s == "cli_active" || s == "cli_waiting" || s == "remote_active" || s == "released"
  then s else "remote_active"

def readRow (r : SessionRow) : SessionRow :=
  { r with control_state := coerce_control_state r.control_state }

/-- `SessionRegistry.get` (lines 157-169): exact id match first, then prefix
match when the argument has at least 8 characters; rows are read through
`_dict_to_session`. -/
def regGet (st : RegState) (session_id : String) : Option SessionRow :=
  match get_by_id st.sessions session_id with
  | some r => some (readRow r)
  | none =>
      if session_id.length ≥ 8 then (getByIdPfx st.sessions session_id).map readRow
      else none

/-- `SessionRepository.update_control_state` (repositories.py lines 92-97):
an unconditional `UPDATE`, then re-read; an event is logged whenever the
session exists.  There is no transition validation here. -/
def repo_update_control_state (st : RegState) (session_id control_state : String) :
    Option SessionRow × RegState :=
  let rows' := st.sessions.map (fun r =>
    if r.id == session_id then { r with control_state := control_state } else r)
  match get_by_id rows' session_id with
  | some row =>
      (some row,
       { sessions := rows',
         events := st.events ++ [⟨session_id, "control_state_changed", control_state⟩] })
  | none => (none, { st with sessions := rows' })

/-- `SessionRegistry.update_control_state` (lines 309-317): delegates to the
repository and converts the result row. -/
def update_control_state (st : RegState) (session_id control_state : String) :
    Option SessionRow × RegState :=
  let res := repo_update_control_state st session_id control_state
  (res.1.map readRow, res.2)

/-- `SessionRegistry.can_execute_remote_task` (lines 363-368). -/
def can_execute_remote_task (st : RegState) (session_id : String) : Bool :=
  match regGet st session_id with
  | none => false
  | some s => s.control_state == "remote_active"

/-- A row of the `queued_messages` table, in creation order. -/
structure QueuedMsg where
  id : Nat
  session_id : String
  content : String
  status : String
deriving DecidableEq, Repr

/-- `QueuedMessageRepository.get_next`: first pending message for the
session in creation order. -/
def get_next_queued (q : List QueuedMsg) (session_id : String) : Option QueuedMsg :=
  q.find? (fun m => m.session_id == session_id && m.status == "pending")

inductive SendNextOutcome where
  | notFound
  | notRemote
  | noMessages
  | sent (content : String)
deriving DecidableEq, Repr

/-- The guard structure of `POST /sessions/{id}/queue/send-next`
(api/routes.py lines 762-792): 404 when the session cannot be resolved, 400
when `can_execute_remote_task` is false, otherwise the next pending message
(if any) is sent to the task executor. -/
def send_next_queued (st : RegState) (q : List QueuedMsg) (session_id : String) :
    SendNextOutcome :=
  match regGet st session_id with
  | none => SendNextOutcome.notFound
  | some _ =>
      if !can_execute_remote_task st session_id then SendNextOutcome.notRemote
      else
        match get_next_queued q session_id with
        | none => SendNextOutcome.noMessages
        | some m => SendNextOutcome.sent m.content

/-- `os.path.basename` for POSIX paths: everything after the last `/`. -/
def basename (p : String) : String := (p.splitOn "/").getLastD ""

/-- The numeric-suffix parser inside `_generate_unique_name` (lines 148-153):
`int(name.split("#")[-1].strip())`, `None` when `int` raises `ValueError`. -/
def parse_suffix_num (name : String) : Option Int :=
  listToInt? (stripChars (afterLastHash name.toList))

/-- `SessionRegistry._generate_unique_name` (lines 130-155).  Existing names
are those of non-stopped sessions (`repo.get_all()` default) for the same
project directory.  The fold mirrors the `max_num` loop: a name equal to the
base counts as 1, a name of the form `"{base} #k"` contributes its parsed
suffix, unparsable suffixes are skipped. -/
def generate_unique_name (rows : List SessionRow) (base_name project_dir : String) : String :=
  let existing := ((rows.filter (fun r => r.status != "stopped")).filter
      (fun r => r.project_dir == project_dir)).map (fun r => r.name)
  if existing.isEmpty then base_name
  else if !(existing.contains base_name) then base_name
  else
    let max_num : Int := existing.foldl (fun m n =>
      if n == base_name then max m 1
      else if listStartsWith n.toList (base_name ++ " #").toList then
        match parse_suffix_num n with
        | some k => max m k
        | none => m
      else m) 1
    base_name ++ " #" ++ intShow (max_num + 1)

/-- `SessionRegistry.register` (lines 84-128).  An existing `session_id` is
refreshed via `repo.upsert`, keeping the stored display name; a new one gets
a freshly generated unique name and a `session_created` event, with the
defaults of `SessionRepository.create` (`status="running"`,
`control_state="cli_active"`). -/
def register (st : RegState) (session_id project_dir : String) (name : Option String) :
    SessionRow × RegState :=
  match get_by_id st.sessions session_id with
  | some existing =>
      let updated : SessionRow :=
        { existing with project_dir := project_dir, status := "running" }
      let rows' := st.sessions.map (fun r => if r.id == session_id then updated else r)
      (updated, { st with sessions := rows' })
  | none =>
      let base0 := match name with
                   | some n => if n.isEmpty then basename project_dir else n
                   | none => basename project_dir
      let base_name := if base0.isEmpty then "unknown" else base0
      let final_name := generate_unique_name st.sessions base_name project_dir
      let row : SessionRow := ⟨session_id, final_name, project_dir, "running", "cli_active"⟩
      (row, { sessions := st.sessions ++ [row],
              events := st.events ++ [⟨session_id, "session_created", final_name⟩] })

/-- Registering a list of fresh sessions one after the other, all with the
same explicit base name and project directory. -/
def register_seq (st : RegState) (project_dir base : String) : List String → RegState
  | [] => st
  | sid :: rest => register_seq ((register st sid project_dir (some base)).2) project_dir base rest

/-- The names of the sessions of a project directory, in table order. -/
def names_for (st : RegState) (project_dir : String) : List String :=
  (st.sessions.filter (fun r => r.project_dir == project_dir)).map (fun r => r.name)

/-- The display name the policy assigns to the `j`-th session (1-based) of a
directory: the base itself first, then `"{base} #j"`. -/
def nameAt (base : String) (j : Nat) : String :=
  if j = 1 then base else base ++ " #" ++ intShow (j : Int)

def nameSeq (base : String) : Nat → List String
  | 0 => []
  | k+1 => nameSeq base k ++ [nameAt base (k+1)]

/-! ## Permission allowlist (`GET /allowlist/check`, `hooks/telegram_pre_tool.py`)

The rule store visible in `src/` (`POST /allowlist`, routes.py lines
1308-1316) holds rows of `(tool_name, pattern, description)` — allow rules
only, with no `rule_type`, no scope and no `session_id` column — and the
check endpoint (lines 1519-1537) receives only `(tool_name, tool_input)`.
The repository class behind `get_allowlist_repo().is_allowed` is not under
`src/`; it is modelled below from the spec's §4.3 Matching paragraph. -/

structure AllowRule where
  tool_name : String
  pattern : String
deriving DecidableEq, Repr

/-- A decoded `tool_input` JSON object with string fields. -/
abbrev ToolInput := List (String × String)

def lookupInput (ti : ToolInput) (k : String) : String :=
  (((ti.find? (fun p => p.1 == k)).map (fun p => p.2)).getD "")

/-- The suffixes of `s` reachable by consuming a (possibly empty) run of
non-`/` characters from the front. -/
def nonSlashSuffixes : List Char → List (List Char)
  | [] => [[]]
  | c :: cs => (c :: cs) :: (if c ≠ '/' then nonSlashSuffixes cs else [])

/-- Modelled from the spec: glob semantics of §4.3 — "`*` ⇒ any run of
non-path characters, `?` ⇒ one char"; other pattern characters are literal.
A `*` consumes any run of non-`/` characters (it never crosses a `/`). -/
def globChars : List Char → List Char → Bool
  | [], s => s.isEmpty
  | '*' :: ps, s => (nonSlashSuffixes s).any (fun s' => globChars ps s')
  | '?' :: ps, s =>
      match s with
      | [] => false
      | _ :: cs => globChars ps cs
  | p :: ps, s =>
      match s with
      | [] => false
      | c :: cs => p == c && globChars ps cs

/-- Modelled from the spec, §4.3 Matching: the string a pattern is matched
against — the command string for `Execute`, the file path for the file
tools; for unknown tools only the pattern `*` matches (modelled as matching
against the empty string). -/
def match_target (tool_name : String) (ti : ToolInput) : String :=
  if tool_name == "Execute" then lookupInput ti "command"
  else if tool_name == "Read" || tool_name == "Edit" || tool_name == "Create"
      || tool_name == "MultiEdit" then lookupInput ti "file_path"
  else ""

/-- Modelled from the spec: `AllowlistRepository.is_allowed(tool_name,
input_dict)` — absent from `src/`; per §4.3, allowed iff some stored rule
for this tool glob-matches the tool input.  Note the signature visible at
the call site (routes.py line 1534) takes no session id. -/
def is_allowed (rules : List AllowRule) (tool_name : String) (ti : ToolInput) : Bool :=
  rules.any (fun r =>
    r.tool_name == tool_name && globChars r.pattern.toList (match_target tool_name ti).toList)

/-- `GET /allowlist/check` (routes.py lines 1519-1537): decode `tool_input`
and delegate to `is_allowed`; the response carries only the boolean. -/
def check_allowlist (rules : List AllowRule) (tool_name : String) (ti : ToolInput) : Bool :=
  is_allowed rules tool_name ti

/-- The data a `PreToolUse` hook invocation works with: the stdin JSON's
`session_id`, `tool_name` and `tool_input`. -/
structure HookToolQuery where
  session_id : String
  tool_name : String
  tool_input : ToolInput
deriving DecidableEq, Repr

inductive HookPhase1 where
  | allow
  | ask
deriving DecidableEq, Repr

/-- The allowlist phase of `telegram_pre_tool.py` `main` (lines 127-131):
if `check_allowlist(tool_name, tool_input)` is true the hook prints an
`allow` decision and exits; otherwise it proceeds to the interactive
permission request (`ask`). -/
def pre_tool_phase1 (rules : List AllowRule) (q : HookToolQuery) : HookPhase1 :=
  if check_allowlist rules q.tool_name q.tool_input then HookPhase1.allow else HookPhase1.ask

/-- `POST /hooks/sessions/{id}/respond` (routes.py lines 386-411): 404 when
the session cannot be resolved, otherwise the queue delivery's boolean is
reported as `success`. -/
def respond_to_session (reg : RegState) (q : QState) (session_id : String)
    (request_id : Option String) (response : String) : Option (Bool × QState) :=
  match regGet reg session_id with
  | none => none
  | some _ => some (deliver_response q session_id request_id response)

/-! ## Concrete scenario states used by the counterexamples -/

/-- One waiter pending for `("S", "r1")`. -/
def c3State : QState := (wait_for_response_enter qEmpty "S" "r1" 300).2

/-- Waits registered for `("S","R1")`, `("S","R2")`, then `("S","R1")` again
(superseding the first), creating futures 0, 1, 2 in that order. -/
def c4State : QState :=
  (wait_for_response_enter
    ((wait_for_response_enter
      ((wait_for_response_enter qEmpty "S" "R1" 300).2) "S" "R2" 300).2) "S" "R1" 300).2

/-- Two waits registered for the same key `("S","R")` in succession. -/
def c5State : QState :=
  (wait_for_response_enter ((wait_for_response_enter qEmpty "S" "R" 300).2) "S" "R" 300).2

/-- A waiter for `("S","R)"` whose future was then completed by a delivery,
before the waiter has resumed and cleaned up. -/
def c9State : QState :=
  (deliver_response ((wait_for_response_enter qEmpty "S" "R" 300).2) "S" none "a").2

/-- A session whose stored control state is `remote_active`. -/
def c1St : RegState := ⟨[⟨"s1", "x", "/a", "running", "remote_active"⟩], []⟩

/-- The §3 control-state transition table, written from the spec for
comparison with the code's behaviour. -/
def spec_control_transition (src tgt : String) : Bool :=
  (src == "cli_active" && tgt == "cli_waiting") ||
  (src == "cli_waiting" && tgt == "remote_active") ||
  (src == "cli_active" && tgt == "remote_active") ||
  (src == "released" && tgt == "remote_active") ||
  (src == "remote_active" && tgt == "released") ||
  (src == "released" && tgt == "cli_active")

/-- A single remote-active session whose 10-character id properly extends
the 8-character query string used in the C6 counterexample. -/
def c6St : RegState := ⟨[⟨"abcdefghXY", "x", "/a", "running", "remote_active"⟩], []⟩

def c2Rules : List AllowRule := [⟨"Execute", "*"⟩]

def c2Input : ToolInput := [("command", "rm -rf /")]

/-! ## Dictionary lemmas -/

theorem dictFind?_insert_self {α : Type} (k : String) (v : α) (d : Dict α) :
    dictFind? k (dictInsert k v d) = some v := by
  induction d with
  | nil => simp [dictInsert, dictFind?]
  | cons p ds ih =>
    by_cases h : p.1 = k
    · simp [dictInsert, h, dictFind?]
    · have hb : (p.1 == k) = false := beq_eq_false_iff_ne.mpr h
      simpa [dictInsert, hb, dictFind?, List.find?] using ih

theorem dictFind?_insert_ne {α : Type} {k' k : String} (v : α) (d : Dict α)
    (hne : k' ≠ k) : dictFind? k' (dictInsert k v d) = dictFind? k' d := by
  have hkk' : (k == k') = false := beq_eq_false_iff_ne.mpr (Ne.symm hne)
  induction d with
  | nil => simp [dictInsert, dictFind?, List.find?, hkk']
  | cons p ds ih =>
    by_cases h : p.1 = k
    · have hb : (p.1 == k) = true := beq_iff_eq.mpr h
      have hb' : (p.1 == k') = false := beq_eq_false_iff_ne.mpr (h ▸ Ne.symm hne)
      simp only [dictInsert, hb, if_true, dictFind?, List.find?, hkk', hb']
    · have hb : (p.1 == k) = false := beq_eq_false_iff_ne.mpr h
      by_cases h' : p.1 = k'
      · have hb' : (p.1 == k') = true := beq_iff_eq.mpr h'
        simp only [dictInsert, hb, Bool.false_eq_true, if_false, dictFind?, List.find?, hb']
      · have hb' : (p.1 == k') = false := beq_eq_false_iff_ne.mpr h'
        simp only [dictInsert, hb, Bool.false_eq_true, if_false, dictFind?, List.find?, hb']
        exact ih

theorem mem_keys_insert {α : Type} {a k : String} {v : α} {d : Dict α} :
    a ∈ (dictInsert k v d).map Prod.fst ↔ a = k ∨ a ∈ d.map Prod.fst := by
  induction d with
  | nil => simp [dictInsert]
  | cons p ds ih =>
    by_cases h : p.1 = k
    · subst h
      simp [dictInsert]
    · have hb : (p.1 == k) = false := beq_eq_false_iff_ne.mpr h
      simp [dictInsert, hb, ih]
      tauto

theorem keysNodup_insert {α : Type} {k : String} {v : α} {d : Dict α}
    (h : keysNodup d) : keysNodup (dictInsert k v d) := by
  induction d with
  | nil => simp [dictInsert, keysNodup]
  | cons p ds ih =>
    unfold keysNodup at h
    simp only [List.map_cons, List.nodup_cons] at h
    by_cases hp : p.1 = k
    · subst hp
      unfold keysNodup
      simpa [dictInsert] using h
    · have hb : (p.1 == k) = false := beq_eq_false_iff_ne.mpr hp
      unfold keysNodup
      simp only [dictInsert, hb, Bool.false_eq_true, if_false, List.map_cons, List.nodup_cons]
      constructor
      · intro hmem
        rcases mem_keys_insert.mp hmem with h1 | h1
        · exact hp h1
        · exact h.1 h1
      · exact ih h.2

theorem keysNodup_pop {α : Type} (k : String) {d : Dict α}
    (h : keysNodup d) : keysNodup (dictPop k d) := by
  unfold keysNodup at h ⊢
  exact h.sublist ((List.eraseP_sublist d).map Prod.fst)

theorem dictFind?_pop_self {α : Type} (k : String) {d : Dict α}
    (h : keysNodup d) : dictFind? k (dictPop k d) = none := by
  induction d with
  | nil => simp [dictPop, dictFind?]
  | cons p ds ih =>
    unfold keysNodup at h
    simp only [List.map_cons, List.nodup_cons] at h
    by_cases hp : p.1 = k
    · have hb : (p.1 == k) = true := beq_iff_eq.mpr hp
      have hnone : List.find? (fun q => q.1 == k) ds = none := by
        apply List.find?_eq_none.mpr
        intro x hx
        simp only [beq_iff_eq]
        intro hcon
        exact h.1 (by rw [hp, ← hcon]; exact List.mem_map_of_mem Prod.fst hx)
      simp only [dictPop, List.eraseP_cons, hb, cond_true, dictFind?, hnone, Option.map_none']
    · have hb : (p.1 == k) = false := beq_eq_false_iff_ne.mpr hp
      simp only [dictPop, List.eraseP_cons, hb, cond_false, dictFind?, List.find?, hb]
      exact ih h.2

theorem dictFind?_pop_ne {α : Type} {k' k : String} (d : Dict α)
    (hne : k' ≠ k) : dictFind? k' (dictPop k d) = dictFind? k' d := by
  induction d with
  | nil => simp [dictPop]
  | cons p ds ih =>
    by_cases hp : p.1 = k
    · have hb : (p.1 == k) = true := beq_iff_eq.mpr hp
      have hb' : (p.1 == k') = false := beq_eq_false_iff_ne.mpr (hp ▸ fun h => hne h.symm)
      simp only [dictPop, List.eraseP_cons, hb, cond_true, dictFind?, List.find?, hb']
    · have hb : (p.1 == k) = false := beq_eq_false_iff_ne.mpr hp
      by_cases hp' : p.1 = k'
      · have hb' : (p.1 == k') = true := beq_iff_eq.mpr hp'
        simp only [dictPop, List.eraseP_cons, hb, cond_false, dictFind?, List.find?, hb']
      · have hb' : (p.1 == k') = false := beq_eq_false_iff_ne.mpr hp'
        simp only [dictPop, List.eraseP_cons, hb, cond_false, dictFind?, List.find?, hb']
        exact ih

theorem dictFind?_mem {α : Type} {k : String} {v : α} {d : Dict α}
    (h : dictFind? k d = some v) : (k, v) ∈ d := by
  unfold dictFind? at h
  rcases Option.map_eq_some'.mp h with ⟨p, hp, hv⟩
  have hmem := List.mem_of_find?_eq_some hp
  have hpred := List.find?_some hp
  have hk : p.1 = k := by simpa using hpred
  have : p = (k, v) := by
    cases p
    simp_all
  exact this ▸ hmem

theorem truthy_truthy (r : Option String) : truthy (truthy r) = truthy r := by
  unfold truthy
  cases r with
  | none => rfl
  | some s =>
    by_cases h : s.isEmpty
    · simp [h]
    · simp [h]

theorem isEmpty_false_of_ne {s : String} (h : s ≠ "") : s.isEmpty = false := by
  cases he : s.isEmpty
  · rfl
  · exfalso
    apply h
    have h2 : s.endPos = 0 := by simpa [String.isEmpty] using he
    have h3 : s.utf8ByteSize = 0 := by simpa [String.endPos, String.Pos.ext_iff] using h2
    cases s with
    | mk data =>
      cases data with
      | nil => rfl
      | cons c cs =>
        exfalso
        have hpos := Char.utf8Size_pos c
        simp [String.utf8ByteSize, String.utf8ByteSize.go] at h3
        omega

theorem truthy_some {s : String} (h : s ≠ "") : truthy (some s) = some s := by
  simp [truthy, isEmpty_false_of_ne h]

/-- When no response is parked for the key, `wait_for_response` registers a
fresh pending wait. -/
theorem enter_of_no_parked (st : QState) (sid rid : String) (tmo : Nat)
    (h : lookup2 st.responses sid rid = none) :
    wait_for_response_enter st sid rid tmo = (none, registerPendingWait st sid rid) := by
  unfold lookup2 at h
  unfold wait_for_response_enter
  cases hf : dictFind? sid st.responses with
  | none => rfl
  | some resps =>
    rw [hf] at h
    simp only [Option.some_bind] at h
    dsimp only
    rw [h]

/-! ## Claim theorems: rendezvous queue -/

/-- C10: whenever `wait_for_response` returns — with a delivered response,
with null on timeout, or by propagating a cancellation — the pending-wait
entry for its `(session_id, request_id)` is removed from the pending-waits
map, and the per-session map entry is deleted when it becomes empty; no
waiter entry outlives its wait call. -/
theorem c10_wait_cleanup (st : QState) (sid rid : String) (t : Nat) (hwf : qStateWF st) :
    lookup2 (wait_for_response_exit st sid rid t).2.pending sid rid = none ∧
    (∀ inner, dictFind? sid (wait_for_response_exit st sid rid t).2.pending = some inner →
      inner ≠ []) := by
  unfold wait_for_response_exit wait_for_response_cleanup
  cases hf : dictFind? sid st.pending with
  | none =>
    refine ⟨by simp [lookup2, hf], ?_⟩
    intro inner hi
    simp only at hi
    rw [hf] at hi
    cases hi
  | some inner =>
    have hinner : keysNodup inner := hwf.2.1 (sid, inner) (dictFind?_mem hf)
    simp only
    by_cases he : (dictPop rid inner).isEmpty
    · simp only [he, if_true]
      have hnone : dictFind? sid (dictPop sid st.pending) = none :=
        dictFind?_pop_self sid hwf.1
      refine ⟨by simp [lookup2, hnone], ?_⟩
      intro inner' hi
      rw [hnone] at hi
      cases hi
    · simp only [he, Bool.false_eq_true, if_false]
      have houter : dictFind? sid (dictInsert sid (dictPop rid inner) st.pending)
          = some (dictPop rid inner) := dictFind?_insert_self _ _ _
      refine ⟨?_, ?_⟩
      · simp only [lookup2, houter, Option.bind_some]
        exact dictFind?_pop_self rid hinner
      · intro inner' hi
        rw [houter] at hi
        cases hi
        intro hnil
        rw [hnil] at he
        exact he rfl

/-- C10 witness: cleanup at a concrete state with one pending waiter. -/
theorem c10_witness :
    lookup2 (wait_for_response_exit c3State "S" "r1" 0).2.pending "S" "r1" = none ∧
    (∀ inner, dictFind? "S" (wait_for_response_exit c3State "S" "r1" 0).2.pending = some inner →
      inner ≠ []) :=
  c10_wait_cleanup c3State "S" "r1" 0 (by decide)

/-- C9 (amended): `deliver_response` always returns `True` (and never
raises); when the session has no pending-wait entry the response is parked —
under the supplied `request_id`, or under `"_latest"` when it is omitted or
empty — so `POST /hooks/sessions/{id}/respond` reports success regardless of
whether any hook was waiting.  (When the session does have pending-wait
entries whose chosen future is already completed, the park key is instead
the rebound request id of that entry; see the counterexample.) -/
theorem c9_deliver_true (st : QState) (sid : String) (rid : Option String) (resp : String) :
    (deliver_response st sid rid resp).1 = true ∧
    (dictFind? sid st.pending = none →
      lookup2 (deliver_response st sid rid resp).2.responses sid
        (match truthy rid with | some r => r | none => "_latest") = some resp) := by
  constructor
  · unfold deliver_response
    cases dictFind? sid st.pending with
    | none => rfl
    | some pw =>
      dsimp only
      cases truthy rid with
      | none =>
        dsimp only
        cases pw.head? with
        | none => rfl
        | some p =>
          cases p with
          | mk r t => dsimp only; split <;> rfl
      | some r =>
        dsimp only
        cases dictFind? r pw with
        | none =>
          dsimp only
          cases pw.head? with
          | none => rfl
          | some p =>
            cases p with
            | mk r' t => dsimp only; split <;> rfl
        | some t => dsimp only; split <;> rfl
  · intro hnone
    unfold deliver_response
    rw [hnone]
    dsimp only
    unfold park lookup2
    rw [truthy_truthy]
    cases truthy rid with
    | none =>
      dsimp only
      rw [dictFind?_insert_self]
      exact dictFind?_insert_self _ _ _
    | some r =>
      dsimp only
      rw [dictFind?_insert_self]
      exact dictFind?_insert_self _ _ _

/-- C9 witness: a delivery into an empty queue state parks under `"_latest"`
and reports success. -/
theorem c9_witness :
    lookup2 (deliver_response qEmpty "S" none "ok").2.responses "S" "_latest" = some "ok" :=
  (c9_deliver_true qEmpty "S" none "ok").2 rfl

/-- C9 counterexample: with a pending entry whose future is already
completed (token 0 got response "a"), a second delivery with `request_id`
omitted parks under the rebound key `"R"` — not under `"_latest"` as the
claim states. -/
theorem c9_counterexample :
    lookup2 (deliver_response c9State "S" none "b").2.responses "S" "R" = some "b" ∧
    lookup2 (deliver_response c9State "S" none "b").2.responses "S" "_latest" = none := by
  decide

/-- C3 counterexample: in `c3State` the only waiter is for `("S","r1")`, so
no waiter is pending for the key `("S","r2")`.  Yet
`deliver_response("S","r2","hello")` does not park the response: the
unmatched request id falls through to the session's oldest waiter (future 0
is completed with "hello", the parked-response map stays empty), and a
subsequent `wait_for_response("S","r2")` does not receive it. -/
theorem c3_counterexample :
    (deliver_response c3State "S" (some "r2") "hello").2.responses = [] ∧
    (deliver_response c3State "S" (some "r2") "hello").2.futures = [FutureState.done "hello"] ∧
    (wait_for_response_enter (deliver_response c3State "S" (some "r2") "hello").2
      "S" "r2" 0).1 = none := by
  decide

/-- C3 (amended): if `deliver_response(session_id, request_id, response)`
arrives when the session has no pending-wait entry at all, the response is
parked in the per-session response map, and the next `wait_for_response` for
the same `(session_id, request_id)` returns exactly that response
immediately — no pending wait or future is created, the parked entry is
removed, and the timeout value (including 0) plays no role.  (When the
session has pending waiters, even only for other request ids, the delivery
is matched against those instead; see the counterexample.) -/
theorem c3_park_pickup (st : QState) (sid rid resp : String) (tmo : Nat)
    (hwf : qStateWF st) (hnopend : dictFind? sid st.pending = none) (hrid : rid ≠ "") :
    (wait_for_response_enter (deliver_response st sid (some rid) resp).2 sid rid tmo).1
      = some resp ∧
    lookup2 (wait_for_response_enter (deliver_response st sid (some rid) resp).2
      sid rid tmo).2.responses sid rid = none ∧
    (wait_for_response_enter (deliver_response st sid (some rid) resp).2 sid rid tmo).2.pending
      = st.pending ∧
    (wait_for_response_enter (deliver_response st sid (some rid) resp).2 sid rid tmo).2.futures
      = st.futures := by
  have hinner0 : keysNodup ((dictFind? sid st.responses).getD []) := by
    cases hi : dictFind? sid st.responses with
    | none => simp [keysNodup]
    | some i => exact hwf.2.2.2 (sid, i) (dictFind?_mem hi)
  have hpark : (deliver_response st sid (some rid) resp).2
      = { st with responses := (dictInsert sid (dictInsert rid resp
            ((dictFind? sid st.responses).getD [])) st.responses) } := by
    unfold deliver_response
    rw [hnopend]
    dsimp only
    unfold park
    rw [truthy_truthy, truthy_some hrid]
  rw [hpark]
  have h1 : dictFind? sid (dictInsert sid
        (dictInsert rid resp ((dictFind? sid st.responses).getD [])) st.responses)
      = some (dictInsert rid resp ((dictFind? sid st.responses).getD [])) :=
    dictFind?_insert_self _ _ _
  have h2 : dictFind? rid (dictInsert rid resp ((dictFind? sid st.responses).getD []))
      = some resp := dictFind?_insert_self _ _ _
  unfold wait_for_response_enter
  rw [h1]
  dsimp only
  rw [h2]
  dsimp only
  refine ⟨rfl, ?_, rfl, rfl⟩
  have hXnodup : keysNodup (dictInsert rid resp ((dictFind? sid st.responses).getD [])) :=
    keysNodup_insert hinner0
  have hpop : dictFind? rid
      (dictPop rid (dictInsert rid resp ((dictFind? sid st.responses).getD []))) = none :=
    dictFind?_pop_self rid hXnodup
  by_cases he : (dictPop rid (dictInsert rid resp ((dictFind? sid st.responses).getD []))).isEmpty
  · simp only [he, if_true, lookup2]
    rw [dictFind?_pop_self sid (keysNodup_insert hwf.2.2.1)]
    rfl
  · simp only [he, Bool.false_eq_true, if_false, lookup2]
    rw [dictFind?_insert_self]
    simpa using hpop

/-- C3 witness: parking into the empty state and picking it up with
timeout 0. -/
theorem c3_witness :
    (wait_for_response_enter (deliver_response qEmpty "S" (some "r1") "ok").2 "S" "r1" 0).1
      = some "ok" ∧
    lookup2 (wait_for_response_enter (deliver_response qEmpty "S" (some "r1") "ok").2
      "S" "r1" 0).2.responses "S" "r1" = none ∧
    (wait_for_response_enter (deliver_response qEmpty "S" (some "r1") "ok").2 "S" "r1" 0).2.pending
      = qEmpty.pending ∧
    (wait_for_response_enter (deliver_response qEmpty "S" (some "r1") "ok").2 "S" "r1" 0).2.futures
      = qEmpty.futures :=
  c3_park_pickup qEmpty "S" "r1" "ok" 0 (by decide) (by decide) (by decide)

/-- C4 counterexample: waits begin for `("S","R1")` (future 0), `("S","R2")`
(future 1), then `("S","R1")` again (future 2, superseding future 0 in the
same key slot, which keeps its map position).  A `deliver_response` without
request id completes future 2 — the waiter whose wait began third — while
future 1, whose wait began earlier and which is still pending, is not
completed: responses are not matched to waiters in begin-time FIFO order. -/
theorem c4_counterexample :
    c4State.pending = [("S", [("R1", 2), ("R2", 1)])] ∧
    (deliver_response c4State "S" none "go").2.futures
      = [FutureState.pending, FutureState.pending, FutureState.done "go"] := by
  decide

/-- C4 (amended): a `deliver_response` without request id completes the
waiter stored at the head of the session's pending map — the earliest
registered request-id key, which is the waiter whose wait began first except
when a later wait re-used an existing key slot — and a `deliver_response`
whose request id matches a pending waiter completes exactly that waiter. -/
theorem c4_deliver_matching (st : QState) (sid : String) (resp : String) (pw : Dict Nat)
    (hpw : dictFind? sid st.pending = some pw) :
    (∀ r t, pw.head? = some (r, t) →
        st.futures.getD t FutureState.pending = FutureState.pending →
        deliver_response st sid none resp
          = (true, { st with futures := st.futures.set t (FutureState.done resp) })) ∧
    (∀ rid t, rid ≠ "" → dictFind? rid pw = some t →
        st.futures.getD t FutureState.pending = FutureState.pending →
        deliver_response st sid (some rid) resp
          = (true, { st with futures := st.futures.set t (FutureState.done resp) })) := by
  constructor
  · intro r t hhead hfut
    unfold deliver_response
    rw [hpw]
    dsimp only [truthy]
    rw [hhead]
    dsimp only
    rw [if_pos hfut]
  · intro rid t hne hfind hfut
    unfold deliver_response
    rw [hpw]
    dsimp only
    rw [truthy_some hne]
    dsimp only
    rw [hfind]
    dsimp only
    rw [if_pos hfut]

/-- C4 witness: a targeted delivery completes exactly the matching waiter. -/
theorem c4_witness :
    deliver_response c3State "S" (some "r1") "ok"
      = (true, { c3State with futures := c3State.futures.set 0 (FutureState.done "ok") }) :=
  (c4_deliver_matching c3State "S" "ok" [("r1", 0)] (by decide)).2 "r1" 0
    (by decide) (by decide) (by decide)

/-- C5 counterexample: after a second `wait_for_response` for the same key
`("S","R")` begins while the first is still pending, the first waiter's
future (token 0) is still `pending` — it has not been completed with a
cancellation signal (nor with anything else); the pending map now holds
token 1 for the key. -/
theorem c5_counterexample :
    c5State.futures.getD 0 FutureState.cancelled = FutureState.pending ∧
    lookup2 c5State.pending "S" "R" = some 1 := by
  decide

/-- C5 (amended): a second `wait_for_response` for the same
`(session_id, request_id)` while a first waiter is pending supersedes the
first in the pending-wait map — the key now maps to the second waiter's
future, so subsequent deliveries can only complete the second — but the
first waiter is *not* completed with a cancellation signal: its future stays
`pending` and its call can only end by its own timeout. -/
theorem c5_supersede (st : QState) (sid rid : String) (tmo1 tmo2 : Nat)
    (hpark : lookup2 st.responses sid rid = none) :
    lookup2 (wait_for_response_enter
        ((wait_for_response_enter st sid rid tmo1).2) sid rid tmo2).2.pending sid rid
      = some (st.futures.length + 1) ∧
    (wait_for_response_enter ((wait_for_response_enter st sid rid tmo1).2) sid rid
        tmo2).2.futures.getD st.futures.length FutureState.cancelled
      = FutureState.pending := by
  have h1 := enter_of_no_parked st sid rid tmo1 hpark
  have hresp1 : (registerPendingWait st sid rid).responses = st.responses := rfl
  have h2 := enter_of_no_parked (registerPendingWait st sid rid) sid rid tmo2
    (by rw [hresp1]; exact hpark)
  rw [h1, h2]
  dsimp only
  constructor
  · unfold registerPendingWait lookup2
    dsimp only
    rw [dictFind?_insert_self]
    simp only [Option.some_bind]
    rw [dictFind?_insert_self]
    simp
  · unfold registerPendingWait
    dsimp only
    rw [List.append_assoc]
    have hlen : st.futures.length ≤ st.futures.length := le_refl _
    simp only [List.getD_eq_getElem?_getD, List.getElem?_append_right hlen,
      Nat.sub_self]
    rfl

/-- C5 witness: two waits for `("S","R")` from the empty state. -/
theorem c5_witness :
    lookup2 (wait_for_response_enter
        ((wait_for_response_enter qEmpty "S" "R" 1).2) "S" "R" 2).2.pending "S" "R"
      = some 1 ∧
    (wait_for_response_enter ((wait_for_response_enter qEmpty "S" "R" 1).2) "S" "R"
        2).2.futures.getD 0 FutureState.cancelled
      = FutureState.pending :=
  c5_supersede qEmpty "S" "R" 1 2 (by decide)

/-! ## Claim theorems: session registry -/

/-- Updating the row for `sid` in place (an SQL `UPDATE ... WHERE id = ?`)
commutes with `get_by_id`, provided the update keeps the matched id. -/
theorem get_by_id_map_update (rows : List SessionRow) (sid : String)
    (g : SessionRow → SessionRow) (hg : ∀ r, r.id = sid → (g r).id = sid) :
    get_by_id (rows.map (fun r => if r.id == sid then g r else r)) sid
      = (get_by_id rows sid).map g := by
  induction rows with
  | nil => rfl
  | cons r rs ih =>
    by_cases h : r.id = sid
    · have hb : (r.id == sid) = true := beq_iff_eq.mpr h
      have hb2 : ((g r).id == sid) = true := beq_iff_eq.mpr (hg r h)
      simp only [get_by_id, List.map_cons, hb, if_true, List.find?, hb2]
      rfl
    · have hb : (r.id == sid) = false := beq_eq_false_iff_ne.mpr h
      simp only [get_by_id, List.map_cons, hb, Bool.false_eq_true, if_false, List.find?]
      exact ih

/-- An `UPDATE ... WHERE id = ?` touching no row leaves the table unchanged. -/
theorem map_update_of_not_found (rows : List SessionRow) (sid : String)
    (g : SessionRow → SessionRow) (h : get_by_id rows sid = none) :
    rows.map (fun r => if r.id == sid then g r else r) = rows := by
  unfold get_by_id at h
  rw [List.find?_eq_none] at h
  have : ∀ r ∈ rows, (fun r => if r.id == sid then g r else r) r = r := by
    intro r hr
    have := h r hr
    simp only [Bool.not_eq_true] at this
    simp [this]
  rw [List.map_congr_left this, List.map_id']

/-- C1 (amended): `update_control_state` performs no transition-table
validation.  For any existing session it unconditionally stores the
requested `control_state` — whatever the (current, new) pair — returns the
updated session, and emits a `control_state_changed` event; it returns
nothing only when no session with that id exists, in which case the table
and the event log are unchanged. -/
theorem c1_update_control_state (st : RegState) (sid cs : String) :
    (∀ row, get_by_id st.sessions sid = some row →
        (update_control_state st sid cs).1
          = some (readRow { row with control_state := cs }) ∧
        get_by_id (update_control_state st sid cs).2.sessions sid
          = some { row with control_state := cs } ∧
        (update_control_state st sid cs).2.events
          = st.events ++ [⟨sid, "control_state_changed", cs⟩]) ∧
    (get_by_id st.sessions sid = none →
        update_control_state st sid cs = (none, st)) := by
  constructor
  · intro row hrow
    have hfind : get_by_id (st.sessions.map (fun r =>
          if r.id == sid then { r with control_state := cs } else r)) sid
        = some { row with control_state := cs } := by
      rw [get_by_id_map_update st.sessions sid
        (fun r => { r with control_state := cs }) (fun r h => h), hrow]
      rfl
    unfold update_control_state repo_update_control_state
    dsimp only
    rw [hfind]
    exact ⟨rfl, hfind, rfl⟩
  · intro hnone
    have hrows : st.sessions.map (fun r =>
          if r.id == sid then { r with control_state := cs } else r) = st.sessions :=
      map_update_of_not_found st.sessions sid _ hnone
    unfold update_control_state repo_update_control_state
    dsimp only
    rw [hrows, hnone]
    rfl

/-- C1 witness: a legal transition on a concrete registry. -/
theorem c1_witness :
    (update_control_state c1St "s1" "released").1
      = some (readRow ⟨"s1", "x", "/a", "running", "released"⟩) ∧
    get_by_id (update_control_state c1St "s1" "released").2.sessions "s1"
      = some ⟨"s1", "x", "/a", "running", "released"⟩ ∧
    (update_control_state c1St "s1" "released").2.events
      = c1St.events ++ [⟨"s1", "control_state_changed", "released"⟩] :=
  (c1_update_control_state c1St "s1" "released").1
    ⟨"s1", "x", "/a", "running", "remote_active"⟩ (by decide)

/-- C1 counterexample: `remote_active → cli_waiting` is not in the §3
transition table, yet `update_control_state` applies it, returns the updated
session, and emits a `control_state_changed` event — it does not "return
nothing" and the stored state changes. -/
theorem c1_counterexample :
    spec_control_transition "remote_active" "cli_waiting" = false ∧
    (update_control_state c1St "s1" "cli_waiting").1
      = some ⟨"s1", "x", "/a", "running", "cli_waiting"⟩ ∧
    (update_control_state c1St "s1" "cli_waiting").2.sessions
      = [⟨"s1", "x", "/a", "running", "cli_waiting"⟩] ∧
    (update_control_state c1St "s1" "cli_waiting").2.events
      = [⟨"s1", "control_state_changed", "cli_waiting"⟩] := by
  decide

/-- C6 counterexample: the registry holds a single session with the
10-character id `"abcdefghXY"` in `remote_active`; no session with id
`"abcdefgh"` exists, yet `can_execute_remote_task "abcdefgh"` is true,
because `SessionRegistry.get` falls back to prefix lookup for arguments of
at least 8 characters. -/
theorem c6_counterexample :
    ¬(can_execute_remote_task c6St "abcdefgh" = true ↔
      c6St.sessions.any (fun r =>
        r.id == "abcdefgh" && r.control_state == "remote_active") = true) := by
  decide

/-- C6 (amended): `can_execute_remote_task` returns true iff
`SessionRegistry.get` resolves the argument — by exact id, or by id-prefix
match when the argument has at least 8 characters — to a session whose
(coerced) control state is `remote_active`; and the queue's send-next
endpoint proceeds past its guards (sending a message or reporting an empty
queue) exactly when this predicate is true, refusing with a caller error
(404/400) otherwise. -/
theorem c6_can_execute (st : RegState) (q : List QueuedMsg) (sid : String) :
    (can_execute_remote_task st sid = true ↔
      ∃ row, regGet st sid = some row ∧ row.control_state = "remote_active") ∧
    ((send_next_queued st q sid = SendNextOutcome.noMessages ∨
      ∃ c, send_next_queued st q sid = SendNextOutcome.sent c) ↔
      can_execute_remote_task st sid = true) := by
  constructor
  · unfold can_execute_remote_task
    cases h : regGet st sid with
    | none => simp
    | some s =>
      simp only [beq_iff_eq, Option.some.injEq]
      constructor
      · intro hc
        exact ⟨s, rfl, hc⟩
      · rintro ⟨row, hr, hcs⟩
        rw [hr]
        exact hcs
  · unfold send_next_queued
    cases h : regGet st sid with
    | none =>
      have hfalse : can_execute_remote_task st sid = false := by
        unfold can_execute_remote_task
        rw [h]
      rw [hfalse]
      dsimp only
      constructor
      · rintro (h1 | ⟨c, h1⟩) <;> cases h1
      · intro h1
        cases h1
    | some s =>
      dsimp only
      cases hex : can_execute_remote_task st sid with
      | false =>
        simp only [Bool.not_false, if_true]
        constructor
        · rintro (h1 | ⟨c, h1⟩) <;> cases h1
        · intro h1
          cases h1
      | true =>
        simp only [Bool.not_true, Bool.false_eq_true, if_false]
        cases hq : get_next_queued q sid with
        | none => simp
        | some m => simp

/-- C8: re-registering an existing `session_id` creates no second row (the
table length is unchanged), keeps the stored display name even when a
different name or project directory is supplied, and refreshes
`project_dir` and `status`; no session event is emitted. -/
theorem c8_register_idempotent (st : RegState) (sid pdir : String) (nm : Option String)
    (row : SessionRow) (h : get_by_id st.sessions sid = some row) :
    (register st sid pdir nm).2.sessions.length = st.sessions.length ∧
    get_by_id (register st sid pdir nm).2.sessions sid
      = some { row with project_dir := pdir, status := "running" } ∧
    ((register st sid pdir nm).1).name = row.name ∧
    (register st sid pdir nm).2.events = st.events := by
  have hid : row.id = sid := by
    have := List.find?_some h
    simpa using this
  unfold register
  rw [h]
  dsimp only
  refine ⟨List.length_map _ _, ?_, rfl, rfl⟩
  rw [get_by_id_map_update st.sessions sid
    (fun _ => { row with project_dir := pdir, status := "running" }) (fun r _ => hid), h]
  rfl

/-- C8 witness: re-registering `s1` with a different name and directory. -/
theorem c8_witness :
    (register c1St "s1" "/b" (some "other")).2.sessions.length = c1St.sessions.length ∧
    get_by_id (register c1St "s1" "/b" (some "other")).2.sessions "s1"
      = some ⟨"s1", "x", "/b", "running", "remote_active"⟩ ∧
    ((register c1St "s1" "/b" (some "other")).1).name = "x" ∧
    (register c1St "s1" "/b" (some "other")).2.events = c1St.events :=
  c8_register_idempotent c1St "s1" "/b" (some "other")
    ⟨"s1", "x", "/a", "running", "remote_active"⟩ (by decide)

/-! ## Claim theorems: permission allowlist -/

/-- C2 counterexample: with the only representable encoding of the claim's
rule set — the global allow rule `(Execute, "*")`; the session-scoped deny
rule for `S1` has no representation, since rules carry no type, scope or
session column — the query `(S1, Execute, "rm -rf /")` yields the same
decision as `(S2, Execute, "rm -rf /")` (the check receives no session id
at all), and that decision is `ask`, not the claimed `deny` for `S1` /
`allow` for `S2` (under the spec's glob, `*` does not cross the `/`). -/
theorem c2_counterexample :
    pre_tool_phase1 c2Rules ⟨"S1", "Execute", c2Input⟩
      = pre_tool_phase1 c2Rules ⟨"S2", "Execute", c2Input⟩ ∧
    pre_tool_phase1 c2Rules ⟨"S1", "Execute", c2Input⟩ = HookPhase1.ask := by
  exact ⟨rfl, by decide⟩

/-- C2 (amended): the permission check receives only
`(tool_name, tool_input)` — no session id — and the rule store holds only
global allow rules, so the hook's decision is `allow` when some rule for the
tool glob-matches and `ask` otherwise, and two queries differing only in
`session_id` always yield the same decision.  With the global
`allow Execute "*"` rule, `(Execute, "ls")` yields `allow` for every
session, and `(Execute, "rm -rf /")` yields `ask` for every session. -/
theorem c2_session_independent (rules : List AllowRule) (s1 s2 tn : String) (ti : ToolInput) :
    pre_tool_phase1 rules ⟨s1, tn, ti⟩ = pre_tool_phase1 rules ⟨s2, tn, ti⟩ ∧
    pre_tool_phase1 c2Rules ⟨s1, "Execute", [("command", "ls")]⟩ = HookPhase1.allow ∧
    pre_tool_phase1 c2Rules ⟨s1, "Execute", c2Input⟩ = HookPhase1.ask :=
  ⟨rfl, rfl, rfl⟩

/-! ## Decimal-digit lemmas (towards C7) -/

theorem decReprAux_spec : ∀ (fuel n : Nat) (acc : List Char), n < fuel →
    decReprAux fuel n acc = decReprW n ++ acc := by
  intro fuel
  induction fuel with
  | zero => intro n acc h; omega
  | succ fuel ih =>
    intro n acc hlt
    by_cases h : n < 10
    · rw [decReprAux, if_pos h, decReprW, dif_pos h]
      rfl
    · rw [decReprAux, if_neg h, decReprW, dif_neg h,
        ih (n / 10) _ (by have := Nat.div_lt_self (by omega : 0 < n) (by omega : 1 < 10); omega)]
      simp

theorem decRepr_eq_decReprW (n : Nat) : decRepr n = decReprW n := by
  have := decReprAux_spec (n + 1) n [] (by omega)
  simpa [decRepr] using this

theorem decDigitChar_isDigit {d : Nat} (h : d < 10) : (decDigitChar d).isDigit = true := by
  interval_cases d <;> decide

theorem digitVal_decDigitChar {d : Nat} (h : d < 10) : digitVal (decDigitChar d) = d := by
  interval_cases d <;> decide

theorem decReprW_ne_nil (n : Nat) : decReprW n ≠ [] := by
  rw [decReprW]
  by_cases h : n < 10
  · simp [h]
  · simp [h]

theorem decReprW_all_digit (n : Nat) : ∀ c ∈ decReprW n, c.isDigit = true := by
  induction n using Nat.strong_induction_on with
  | _ n ih =>
    rw [decReprW]
    by_cases h : n < 10
    · simp only [h, dif_pos, List.mem_singleton]
      intro c hc
      rw [hc]
      exact decDigitChar_isDigit h
    · simp only [h, dif_neg]
      intro c hc
      rcases List.mem_append.mp hc with h1 | h1
      · exact ih (n / 10) (Nat.div_lt_self (by omega) (by omega)) c h1
      · rw [List.mem_singleton.mp h1]
        exact decDigitChar_isDigit (Nat.mod_lt n (by omega))

theorem decReprW_foldl (n : Nat) : ∀ acc : Nat,
    (decReprW n).foldl (fun m c => m * 10 + digitVal c) acc
      = acc * 10 ^ (decReprW n).length + n := by
  induction n using Nat.strong_induction_on with
  | _ n ih =>
    intro acc
    by_cases h : n < 10
    · rw [decReprW, dif_pos h]
      simp [digitVal_decDigitChar h]
    · rw [decReprW, dif_neg h, List.foldl_append,
        ih (n / 10) (Nat.div_lt_self (by omega) (by omega)) acc]
      simp only [List.foldl, List.length_append, List.length_singleton]
      rw [digitVal_decDigitChar (Nat.mod_lt n (by omega))]
      have hdm : n / 10 * 10 + n % 10 = n := by
        have := Nat.div_add_mod n 10
        omega
      calc (acc * 10 ^ (decReprW (n / 10)).length + n / 10) * 10 + n % 10
          = acc * (10 ^ (decReprW (n / 10)).length * 10) + (n / 10 * 10 + n % 10) := by ring
        _ = acc * 10 ^ ((decReprW (n / 10)).length + 1) + n := by rw [hdm, pow_succ]

theorem listToNat?_decReprW (n : Nat) : listToNat? (decReprW n) = some n := by
  have h1 : (decReprW n).isEmpty = false := by
    cases hd : decReprW n with
    | nil => exact absurd hd (decReprW_ne_nil n)
    | cons a l => rfl
  have h2 : (decReprW n).all Char.isDigit = true := List.all_eq_true.mpr (decReprW_all_digit n)
  unfold listToNat?
  rw [if_pos (by rw [h1, h2]; rfl)]
  have hf := decReprW_foldl n 0
  simp only [Nat.zero_mul, Nat.zero_add] at hf
  rw [hf]

theorem ne_of_digit {c : Char} (d : Char) (h : c.isDigit = true)
    (hd : d.isDigit = false) : c ≠ d := by
  intro hc
  rw [hc, hd] at h
  cases h

theorem not_ws_of_digit {c : Char} (h : c.isDigit = true) : c.isWhitespace = false := by
  cases hw : c.isWhitespace
  · rfl
  · exfalso
    unfold Char.isWhitespace at hw
    simp only [Bool.or_eq_true, decide_eq_true_eq] at hw
    rcases hw with ((h1 | h1) | h1) | h1 <;> (subst h1; exact absurd h (by decide))

theorem listToInt?_decReprW (n : Nat) : listToInt? (decReprW n) = some (n : Int) := by
  cases hd : decReprW n with
  | nil => exact absurd hd (decReprW_ne_nil n)
  | cons c cs =>
    have hc : c.isDigit = true := decReprW_all_digit n c (by rw [hd]; exact List.mem_cons_self _ _)
    have hc' : c ≠ '-' := ne_of_digit '-' hc (by decide)
    unfold listToInt?
    dsimp only
    rw [if_neg hc', ← hd, listToNat?_decReprW n]
    rfl

theorem stripChars_of_digits (l : List Char) (h : ∀ c ∈ l, c.isDigit = true) :
    stripChars l = l := by
  have hdrop : ∀ (m : List Char), (∀ c ∈ m, c.isWhitespace = false) →
      m.dropWhile Char.isWhitespace = m := by
    intro m hm
    cases m with
    | nil => rfl
    | cons a ms => simp [List.dropWhile_cons, hm a (List.mem_cons_self _ _)]
  unfold stripChars
  rw [hdrop l (fun c hc => not_ws_of_digit (h c hc)),
      hdrop l.reverse (fun c hc => not_ws_of_digit (h c (List.mem_reverse.mp hc))),
      List.reverse_reverse]

theorem takeWhile_append_stop {α : Type} {p : α → Bool} (l r : List α) (c : α)
    (hl : ∀ x ∈ l, p x = true) (hc : p c = false) :
    (l ++ c :: r).takeWhile p = l := by
  induction l with
  | nil => simp [List.takeWhile_cons, hc]
  | cons a as ih =>
    simp only [List.cons_append, List.takeWhile_cons, hl a (List.mem_cons_self _ _), if_true]
    rw [ih (fun x hx => hl x (List.mem_cons_of_mem a hx))]

theorem afterLastHash_append (A D : List Char) (hD : ∀ c ∈ D, c ≠ '#') :
    afterLastHash (A ++ '#' :: D) = D := by
  unfold afterLastHash
  rw [List.reverse_append, List.reverse_cons]
  rw [List.append_assoc, List.singleton_append]
  rw [takeWhile_append_stop D.reverse A.reverse '#'
    (fun x hx => by
      simp only [decide_eq_true_eq]
      exact hD x (List.mem_reverse.mp hx))
    (by decide)]
  exact List.reverse_reverse D

theorem intShow_ofNat (n : Nat) : intShow (n : Int) = String.mk (decReprW n) := by
  unfold intShow
  rw [if_neg (by omega)]
  rw [show ((n : Int)).toNat = n from Int.toNat_ofNat n]
  rw [decRepr_eq_decReprW]

/-- Parsing the numeric suffix of a generated name recovers the number. -/
theorem parse_suffix_num_nameAt (base : String) (j : Nat) (hj : j ≠ 1) :
    parse_suffix_num (nameAt base j) = some (j : Int) := by
  unfold nameAt
  rw [if_neg hj]
  unfold parse_suffix_num
  rw [intShow_ofNat]
  have htl : (base ++ " #" ++ String.mk (decReprW j)).toList
      = (base.toList ++ [' ']) ++ '#' :: decReprW j := by
    simp [String.toList, String.data_append]
  rw [htl, afterLastHash_append _ _
    (fun c hc => ne_of_digit '#' (decReprW_all_digit j c hc) (by decide))]
  rw [stripChars_of_digits _ (decReprW_all_digit j)]
  exact listToInt?_decReprW j

/-! ## Name-generation lemmas (C7) -/

theorem listStartsWith_append : ∀ (p rest : List Char), listStartsWith (p ++ rest) p = true
  | [], rest => by cases rest <;> rfl
  | c :: cs, rest => by
    simp only [List.cons_append, listStartsWith, beq_self_eq_true, Bool.true_and]
    exact listStartsWith_append cs rest

theorem nameAt_ne_base (b : String) (j : Nat) (hj : j ≠ 1) : nameAt b j ≠ b := by
  unfold nameAt
  rw [if_neg hj, intShow_ofNat]
  intro h
  have hlen := congrArg String.length h
  rw [String.length_append, String.length_append] at hlen
  have h2 : (" #").length = 2 := rfl
  have h3 : (String.mk (decReprW j)).length = (decReprW j).length := rfl
  omega

theorem nameAt_startsWith (b : String) (j : Nat) (hj : j ≠ 1) :
    listStartsWith (nameAt b j).toList (b ++ " #").toList = true := by
  unfold nameAt
  rw [if_neg hj]
  have h : (b ++ " #" ++ intShow (j : Int)).toList
      = (b ++ " #").toList ++ (intShow (j : Int)).toList := by
    simp [String.toList, String.data_append]
  rw [h]
  exact listStartsWith_append _ _

theorem nameSeq_succ (b : String) (k : Nat) :
    nameSeq b (k + 1) = nameSeq b k ++ [nameAt b (k + 1)] := rfl

theorem contains_base_nameSeq (b : String) (k : Nat) (hk : 1 ≤ k) :
    (nameSeq b k).contains b = true := by
  have hmem : ∀ m, b ∈ nameSeq b (m + 1) := by
    intro m
    induction m with
    | zero => simp [nameSeq, nameAt]
    | succ m ih =>
      rw [nameSeq_succ]
      exact List.mem_append.mpr (Or.inl ih)
  cases k with
  | zero => omega
  | succ m => exact List.elem_iff.mpr (hmem m)

theorem foldl_nameSeq (b : String) :
    ∀ (k : Nat), 1 ≤ k →
    (nameSeq b k).foldl (fun m n =>
      if n == b then max m 1
      else if listStartsWith n.toList (b ++ " #").toList then
        match parse_suffix_num n with
        | some k => max m k
        | none => m
      else m) 1 = (k : Int) := by
  intro k hk
  induction k, hk using Nat.le_induction with
  | base =>
    show (nameSeq b 1).foldl _ 1 = (1 : Int)
    simp [nameSeq, nameAt, List.foldl]
  | succ k hk1 ih =>
    rw [nameSeq_succ, List.foldl_append, ih]
    have hj : k + 1 ≠ 1 := by omega
    have hne : (nameAt b (k + 1) == b) = false :=
      beq_eq_false_iff_ne.mpr (nameAt_ne_base b (k + 1) hj)
    simp only [List.foldl, hne, Bool.false_eq_true, if_false,
      nameAt_startsWith b (k + 1) hj, if_true,
      parse_suffix_num_nameAt b (k + 1) hj]
    exact max_eq_right (by exact_mod_cast Nat.le_succ k)

theorem generate_unique_name_nameSeq (rows : List SessionRow) (b pdir : String) (k : Nat)
    (hnames : ((rows.filter (fun r => r.status != "stopped")).filter
        (fun r => r.project_dir == pdir)).map (fun r => r.name) = nameSeq b k) :
    generate_unique_name rows b pdir = nameAt b (k + 1) := by
  unfold generate_unique_name
  rw [hnames]
  cases k with
  | zero => simp [nameSeq, nameAt]
  | succ k =>
    have hne : (nameSeq b (k + 1)).isEmpty = false := by
      cases h : (nameSeq b (k + 1)).isEmpty
      · rfl
      · exfalso
        have := List.isEmpty_iff.mp h
        rw [nameSeq_succ] at this
        rcases List.append_eq_nil.mp this with ⟨-, h2⟩
        cases h2
    have hcont : (nameSeq b (k + 1)).contains b = true :=
      contains_base_nameSeq b (k + 1) (by omega)
    simp only [hne, Bool.false_eq_true, if_false, hcont, Bool.not_true]
    rw [foldl_nameSeq b (k + 1) (by omega)]
    unfold nameAt
    rw [if_neg (by omega : k + 2 ≠ 1)]
    have harith : ((k + 1 : Nat) : Int) + 1 = ((k + 2 : Nat) : Int) := by push_cast; ring
    rw [harith]

theorem filter_status_pdir (rows : List SessionRow) (pdir : String)
    (h : ∀ r ∈ rows, r.project_dir = pdir → r.status = "running") :
    (rows.filter (fun r => r.status != "stopped")).filter (fun r => r.project_dir == pdir)
      = rows.filter (fun r => r.project_dir == pdir) := by
  induction rows with
  | nil => rfl
  | cons r rs ih =>
    have hrest := ih (fun x hx => h x (List.mem_cons_of_mem r hx))
    by_cases hp : r.project_dir = pdir
    · have hs : r.status = "running" := h r (List.mem_cons_self _ _) hp
      have h1 : (r.status != "stopped") = true := by rw [hs]; decide
      have h2 : (r.project_dir == pdir) = true := beq_iff_eq.mpr hp
      simp only [List.filter_cons, h1, if_true, h2, hrest]
    · have h2 : (r.project_dir == pdir) = false := beq_eq_false_iff_ne.mpr hp
      cases hs : (r.status != "stopped") with
      | true =>
        simp only [List.filter_cons, hs, if_true, h2, Bool.false_eq_true, if_false, hrest]
      | false =>
        simp only [List.filter_cons, hs, h2, Bool.false_eq_true, if_false, hrest]

theorem register_fresh (st : RegState) (sid pdir b : String)
    (hb : b ≠ "") (hfresh : get_by_id st.sessions sid = none) :
    (register st sid pdir (some b)).2.sessions
      = st.sessions
          ++ [⟨sid, generate_unique_name st.sessions b pdir, pdir, "running", "cli_active"⟩] := by
  unfold register
  rw [hfresh]
  simp only [isEmpty_false_of_ne hb, Bool.false_eq_true, if_false]

theorem get_by_id_append_none (rows : List SessionRow) (r : SessionRow) (i : String)
    (h1 : get_by_id rows i = none) (h2 : r.id ≠ i) :
    get_by_id (rows ++ [r]) i = none := by
  unfold get_by_id at *
  rw [List.find?_eq_none] at *
  intro x hx
  rcases List.mem_append.mp hx with hx | hx
  · exact h1 x hx
  · rw [List.mem_singleton.mp hx]
    simp only [Bool.not_eq_true, beq_eq_false_iff_ne]
    exact h2

/-- The induction behind C7: registering fresh distinct sessions with the
same explicit base name extends the directory's name list along the
numbering policy. -/
theorem register_seq_names (pdir b : String) (hb : b ≠ "") :
    ∀ (ids : List String) (st : RegState) (k : Nat),
      names_for st pdir = nameSeq b k →
      (∀ r ∈ st.sessions, r.project_dir = pdir → r.status = "running") →
      (∀ i ∈ ids, get_by_id st.sessions i = none) →
      ids.Nodup →
      names_for (register_seq st pdir b ids) pdir = nameSeq b (k + ids.length) := by
  intro ids
  induction ids with
  | nil =>
    intro st k h1 h2 h3 h4
    simpa using h1
  | cons sid rest ih =>
    intro st k h1 h2 h3 hnodup
    have hfresh : get_by_id st.sessions sid = none := h3 sid (List.mem_cons_self _ _)
    have hgen : generate_unique_name st.sessions b pdir = nameAt b (k + 1) := by
      apply generate_unique_name_nameSeq
      rw [filter_status_pdir st.sessions pdir h2]
      exact h1
    have hstep : (register st sid pdir (some b)).2.sessions
        = st.sessions ++ [⟨sid, nameAt b (k + 1), pdir, "running", "cli_active"⟩] := by
      rw [register_fresh st sid pdir b hb hfresh, hgen]
    have hnodup' := List.nodup_cons.mp hnodup
    have h1' : names_for (register st sid pdir (some b)).2 pdir = nameSeq b (k + 1) := by
      unfold names_for
      rw [hstep, List.filter_append, List.map_append]
      unfold names_for at h1
      rw [h1]
      rw [nameSeq_succ]
      congr 1
      simp [List.filter_cons, beq_self_eq_true]
    have h2' : ∀ r ∈ (register st sid pdir (some b)).2.sessions,
        r.project_dir = pdir → r.status = "running" := by
      intro r hr hpd
      rw [hstep] at hr
      rcases List.mem_append.mp hr with hr | hr
      · exact h2 r hr hpd
      · rw [List.mem_singleton.mp hr]
    have h3' : ∀ i ∈ rest, get_by_id (register st sid pdir (some b)).2.sessions i = none := by
      intro i hi
      rw [hstep]
      exact get_by_id_append_none st.sessions _ i (h3 i (List.mem_cons_of_mem sid hi))
        (fun hc => hnodup'.1 (by
          have hsi : sid = i := hc
          exact hsi ▸ hi))
    have := ih (register st sid pdir (some b)).2 (k + 1) h1' h2' h3' hnodup'.2
    rw [show register_seq st pdir b (sid :: rest)
        = register_seq (register st sid pdir (some b)).2 pdir b rest from rfl]
    rw [this]
    congr 1
    simp only [List.length_cons]
    omega

/-- C7: for every project directory `p` and base name `b`, starting from a
registry with no sessions for `p`, registering any sequence of fresh,
pairwise-distinct session ids with base name `b` for `p` names them
`b`, `b #2`, `b #3`, …, `b #n` in registration order — the `j`-th name's
suffix being `1 +` the maximum numeric suffix among the existing names. -/
theorem c7_name_sequence (st0 : RegState) (pdir b : String) (ids : List String)
    (hb : b ≠ "") (hnodup : ids.Nodup)
    (hdir : ∀ r ∈ st0.sessions, r.project_dir ≠ pdir)
    (hfresh : ∀ i ∈ ids, get_by_id st0.sessions i = none) :
    names_for (register_seq st0 pdir b ids) pdir = nameSeq b ids.length := by
  have h1 : names_for st0 pdir = nameSeq b 0 := by
    unfold names_for
    rw [List.filter_eq_nil_iff.mpr (fun r hr => by
      simp only [Bool.not_eq_true, beq_eq_false_iff_ne]
      exact hdir r hr)]
    rfl
  have h2 : ∀ r ∈ st0.sessions, r.project_dir = pdir → r.status = "running" :=
    fun r hr hpd => absurd hpd (hdir r hr)
  have := register_seq_names pdir b hb ids st0 0 h1 h2 hfresh hnodup
  simpa using this

/-- C7 witness: three registrations with basename `x` for `/a` yield
`x`, `x #2`, `x #3` in registration order. -/
theorem c7_witness :
    names_for (register_seq regEmpty "/a" "x" ["aaaaaaaa1", "aaaaaaaa2", "aaaaaaaa3"]) "/a"
      = ["x", "x #2", "x #3"] :=
  c7_name_sequence regEmpty "/a" "x" ["aaaaaaaa1", "aaaaaaaa2", "aaaaaaaa3"]
    (by decide) (by decide) (by intro r hr; cases hr) (by intro i hi; rfl)

end Bridge
